import Mathlib

/-!
Verification of the chunked documentation pipeline: a shallow embedding of
`cache_manager_improved.py` (content-addressed cache over a key-value store)
and `chunk_processor_improved.py` (parallel per-chunk cache lookup / generate /
store, ordinal sort, deterministic merge), with theorems for the specified
properties.

Modelling conventions:
* Machine floats and DynamoDB decimals are both modelled as exact rationals
  (`ℚ`), so the `float_to_decimal` / `decimal_to_float` conversion passes are
  the identity on the model.
* The SHA-256 digest is an abstract `digest : String → String` parameter; the
  canonical pre-image string it is applied to is modelled exactly.
* The remote generator is an abstract function from its request to either a
  produced document with cost metrics or a raised fault (`Except`).
* The key-value backend is a function `String → Option CacheEntry`; per-call
  backend faults (raised exceptions inside the cache manager) are injected
  through explicit fault flags / `Except` values.
* The thread pool's nondeterministic completion order is an explicit list of
  chunk indices (`order`), a permutation of the input positions; concurrent
  jobs of one invocation touch pairwise distinct keys, so each job reads the
  invocation's initial cache state and the writes are applied afterwards.
-/

namespace AutoDoc

/-! ### Decimal rendering of naturals

`Nat.repr` is what a Python f-string interpolation of an `int` produces.  The
hash canonicalization theorems need its injectivity, which we derive from an
explicit structural description `decChars` together with an evaluation map
`valOfDigits` that is a left inverse of it. -/

/-- Structural description of the decimal digit-character list of `n`. -/
def decChars (n : Nat) : List Char :=
  if _h : n < 10 then [Nat.digitChar n]
  else decChars (n / 10) ++ [Nat.digitChar (n % 10)]
termination_by n
decreasing_by
  exact Nat.div_lt_self (by omega) (by omega)

/-- Numeric value of a decimal digit character. -/
def digitVal (c : Char) : Nat :=
  if c = '0' then 0 else if c = '1' then 1 else if c = '2' then 2
  else if c = '3' then 3 else if c = '4' then 4 else if c = '5' then 5
  else if c = '6' then 6 else if c = '7' then 7 else if c = '8' then 8
  else if c = '9' then 9 else 0

theorem digitVal_digitChar : ∀ d : Nat, d < 10 → digitVal (Nat.digitChar d) = d := by
  decide

/-- Evaluation of a digit-character list back to a natural number. -/
def valOfDigits (l : List Char) : Nat :=
  l.foldl (fun acc c => acc * 10 + digitVal c) 0

theorem toDigitsCore_eq_decChars :
    ∀ (fuel n : Nat) (ds : List Char), n ≤ fuel →
      Nat.toDigitsCore 10 (fuel + 1) n ds = decChars n ++ ds := by
  intro fuel
  induction fuel with
  | zero =>
    intro n ds hn
    have hn0 : n = 0 := Nat.le_zero.mp hn
    subst hn0
    rw [decChars]
    simp [Nat.toDigitsCore]
  | succ fuel ih =>
    intro n ds hn
    rw [Nat.toDigitsCore]
    by_cases hdiv : n / 10 = 0
    · have hlt : n < 10 := by omega
      rw [decChars]
      simp [hdiv, hlt, Nat.mod_eq_of_lt hlt]
    · have hge : 10 ≤ n := by omega
      have hdivle : n / 10 ≤ fuel := by omega
      simp only [hdiv, if_false]
      rw [ih (n / 10) _ hdivle]
      conv_rhs => rw [decChars]
      simp [Nat.not_lt_of_le hge, List.append_assoc]

theorem repr_eq_decChars (n : Nat) : Nat.repr n = (decChars n).asString := by
  show (Nat.toDigits 10 n).asString = _
  unfold Nat.toDigits
  rw [toDigitsCore_eq_decChars n n [] (Nat.le_refl n)]
  simp

theorem valOfDigits_decChars (n : Nat) : valOfDigits (decChars n) = n := by
  induction n using Nat.strong_induction_on with
  | _ n ih =>
    by_cases h : n < 10
    · rw [decChars]
      simp [h, valOfDigits, digitVal_digitChar n h]
    · rw [decChars]
      simp only [h, dif_neg, not_false_iff, valOfDigits, List.foldl_append]
      have hdiv := Nat.div_lt_self (by omega : 0 < n) (by omega : 1 < 10)
      have hv : List.foldl (fun acc c => acc * 10 + digitVal c) 0 (decChars (n / 10)) = n / 10 :=
        ih (n / 10) hdiv
      rw [hv]
      simp [digitVal_digitChar (n % 10) (Nat.mod_lt _ (by omega))]
      omega

theorem decChars_injective : Function.Injective decChars := by
  intro a b h
  have := congrArg valOfDigits h
  rwa [valOfDigits_decChars, valOfDigits_decChars] at this

theorem natRepr_injective : Function.Injective Nat.repr := by
  intro a b h
  rw [repr_eq_decChars, repr_eq_decChars] at h
  exact decChars_injective (by
    have := congrArg String.data h
    simpa [List.asString] using this)

/-! ### String cancellation helpers -/

theorem string_append_cancel_right {a b t : String} (h : a ++ t = b ++ t) : a = b := by
  apply String.ext
  have := congrArg String.data h
  simp only [String.data_append] at this
  exact List.append_cancel_right this

theorem string_append_cancel_left {a t u : String} (h : a ++ t = a ++ u) : t = u := by
  apply String.ext
  have := congrArg String.data h
  simp only [String.data_append] at this
  exact List.append_cancel_left this

/-! ### Cache manager (`cache_manager_improved.py`)

`CacheManager` wraps a DynamoDB table.  A persisted item is `CacheEntry`; the
absence of the optional `source_code` attribute on the stored item is `none`.
Backend faults (exceptions raised by `get_item` / `put_item`) are injected
explicitly: the lookup backend outcome is an `Except`, and the store backend
outcome is a Boolean success flag. -/

/-- Metadata mapping carried by a cache entry.  The chunk pipeline writes the
fields below and reads `tokens` with a defaulted dictionary lookup, so each
field is optional (`none` models an absent dictionary key). -/
structure CacheMetadata where
  cost : Option ℚ := none
  tokens : Option Nat := none
  chunk_id : Option Nat := none
  chunk_lines : Option String := none
deriving DecidableEq

/-- A persisted cache item, as built by `save_to_cache`. -/
structure CacheEntry where
  file_hash : String
  file_path : String
  documentation : String
  metadata : CacheMetadata
  created_at : String
  ttl : Nat
  source_code : Option String
deriving DecidableEq

/-- The key-value store state: contents of the DynamoDB table by key. -/
def Cache : Type := String → Option CacheEntry

/-- `float_to_decimal` from the source converts floats to DynamoDB decimals;
metadata numbers are exact rationals in the model, so it is the identity. -/
def float_to_decimal (m : CacheMetadata) : CacheMetadata := m

/-- `decimal_to_float` from the source converts DynamoDB decimals back to
floats; on the model it is the identity on the retrieved item. -/
def decimal_to_float (e : CacheEntry) : CacheEntry := e

/-- `CacheManager.calculate_hash`: the whole-file key is the digest of the
file content only. -/
def calculate_hash (digest : String → String) (content : String) : String :=
  digest content

/-- `CacheManager.get_cached`: the `try` body returns the item when the
response has one and `None` otherwise; the `except` arm swallows any backend
fault and returns `None`.  `backend` is the outcome of
`table.get_item` (`Except.error` models a raised exception). -/
def get_cached (backend : Except String (Option CacheEntry)) : Option CacheEntry :=
  match backend with
  | Except.ok item => item
  | Except.error _ => none

/-- Python truthiness of an optional string (`None` and `""` are falsy). -/
def strTruthy (s : Option String) : Bool :=
  match s with
  | none => false
  | some s => s ≠ ""

/-- `CacheManager.save_to_cache`: builds the item (TTL = now + hours·3600,
metadata through `float_to_decimal`, `source_code` attribute added only when
`store_source and source_code` is truthy) and calls `put_item`.  `putOk`
is the backend outcome of `put_item` (`false` models a raised exception,
caught by the `except` arm which returns `False`).  The second component is
the item persisted by the call (`none` when the write failed). -/
def save_to_cache (putOk : Bool) (now : Nat) (createdAt : String)
    (file_hash file_path documentation : String) (metadata : CacheMetadata)
    (ttl_hours : Nat) (source_code : Option String) (store_source : Bool) :
    Bool × Option CacheEntry :=
  let ttl := now + ttl_hours * 3600
  let metadata_decimal := float_to_decimal metadata
  let base : CacheEntry :=
    { file_hash := file_hash
      file_path := file_path
      documentation := documentation
      metadata := metadata_decimal
      created_at := createdAt
      ttl := ttl
      source_code := none }
  let item := if store_source && strTruthy source_code then
      { base with source_code := source_code }
    else base
  if putOk then (true, some item) else (false, none)

/-! ### Chunk processor (`chunk_processor_improved.py`) -/

/-- Modelled from the spec: `CodeChunk` is produced by the external `chunking`
collaborator (its class definition is outside the given sources); the fields
are the ones the spec's data model lists and the chunk processor reads:
zero-based ordinal, line range, type tag, contained symbol names, text. -/
structure CodeChunk where
  chunk_id : Nat
  start_line : Nat
  end_line : Nat
  type : String
  elements : List String
  content : String
deriving DecidableEq

/-- Cost metrics returned by the generator (`total_cost`, `total_tokens`). -/
structure CostMetrics where
  total_cost : ℚ
  total_tokens : Nat
deriving DecidableEq

/-- Request of one `claude_client.generate_documentation` call. -/
structure GenArgs where
  code : String
  file_path : String
  analysis : Option String
  context : String
deriving DecidableEq

/-- The external generator: a raised fault is `Except.error`. -/
def Generator : Type := GenArgs → Except String (String × CostMetrics)

/-- A per-chunk result dictionary.  `error` is `some` exactly on the degraded
results synthesized in the `except` arm of `process_chunks`; `source_code`
is `none` when the dictionary has no (or a `None`) source entry. -/
structure ChunkResult where
  chunk_id : Nat
  documentation : String
  cost : ℚ
  tokens : Nat
  cached : Bool
  source_code : Option String
  error : Option String
deriving DecidableEq

/-- Per-task environment of one chunk job: whether the backend `get_item`
raises, whether `put_item` succeeds, and the wall-clock values read while
storing. -/
structure ChunkEnv where
  getFault : Bool
  putOk : Bool
  now : Nat
  createdAt : String

/-- `ChunkProcessor._calculate_chunk_hash` canonical pre-image:
`f"{file_path}::{chunk.chunk_id}::{chunk.content}"`. -/
def chunkHashInput (file_path : String) (chunk : CodeChunk) : String :=
  file_path ++ "::" ++ Nat.repr chunk.chunk_id ++ "::" ++ chunk.content

/-- `ChunkProcessor._calculate_chunk_hash`: digest of the canonical string. -/
def calculate_chunk_hash (digest : String → String) (file_path : String)
    (chunk : CodeChunk) : String :=
  digest (chunkHashInput file_path chunk)

/-- `ChunkProcessor._build_chunk_context`. -/
def build_chunk_context (file_path : String) (chunk : CodeChunk) : String :=
  "This is part of a larger file (" ++ file_path ++ ").\n\n**Chunk Information:**\n- Chunk "
  ++ Nat.repr (chunk.chunk_id + 1) ++ "\n- Lines: " ++ Nat.repr chunk.start_line ++ "-"
  ++ Nat.repr chunk.end_line ++ "\n- Type: " ++ chunk.type ++ "\n- Contains: "
  ++ (if chunk.elements.isEmpty then "code" else String.intercalate ", " chunk.elements)
  ++ "\n\nGenerate documentation for this specific chunk. Focus on the functions/classes present.\n"

/-- Observable outcome of one `_process_single_chunk` job: the returned
dictionary or the raised fault, whether the generator was invoked, and the
cache item the job persisted (`none` when nothing was written). -/
structure SingleChunkOut where
  result : Except String ChunkResult
  genCalled : Bool
  saved : Option CacheEntry

/-- The chunk job's cache read: outcome of `get_cached` on the chunk's key,
with a raised backend `get_item` fault injected when `e.getFault` is set. -/
def lookup_view (digest : String → String) (cache : Cache) (e : ChunkEnv)
    (file_path : String) (chunk : CodeChunk) : Option CacheEntry :=
  get_cached (if e.getFault then Except.error "backend failure"
    else Except.ok (cache (calculate_chunk_hash digest file_path chunk)))

/-- The request of the generator call a chunk miss issues (lines 185-190). -/
def gen_request (file_path : String) (chunk : CodeChunk) : GenArgs :=
  { code := chunk.content
    file_path := file_path ++ " (Chunk " ++ Nat.repr (chunk.chunk_id + 1) ++ ")"
    analysis := none
    context := build_chunk_context file_path chunk }

/-- `ChunkProcessor._process_single_chunk`: compute the chunk key, consult the
cache (a backend fault degrades to a miss inside `get_cached`); on a hit build
the result from the entry with zero cost and `metadata.get('tokens', 0)`
tokens; on a miss call the generator (whose fault propagates out of the job),
save the entry — with the chunk source only when `store_source_code` is set —
and build an uncached result.  `cache` is the table state the job's read
observes. -/
def process_single_chunk (digest : String → String) (gen : Generator)
    (cache : Cache) (e : ChunkEnv) (store_source_code : Bool)
    (file_path : String) (chunk : CodeChunk) : SingleChunkOut :=
  let chunk_hash := calculate_chunk_hash digest file_path chunk
  match lookup_view digest cache e file_path chunk with
  | some cachedEntry =>
    let cached_clean := decimal_to_float cachedEntry
    { result := Except.ok
        { chunk_id := chunk.chunk_id
          documentation := cached_clean.documentation
          cost := 0
          tokens := cached_clean.metadata.tokens.getD 0
          cached := true
          source_code := cached_clean.source_code
          error := none }
      genCalled := false
      saved := none }
  | none =>
    match gen (gen_request file_path chunk) with
    | Except.error err =>
      { result := Except.error err, genCalled := true, saved := none }
    | Except.ok (documentation, cost_metrics) =>
      let cache_metadata : CacheMetadata :=
        { cost := some cost_metrics.total_cost
          tokens := some cost_metrics.total_tokens
          chunk_id := some chunk.chunk_id
          chunk_lines := some (Nat.repr chunk.start_line ++ "-" ++ Nat.repr chunk.end_line) }
      let savedPair := save_to_cache e.putOk e.now e.createdAt chunk_hash
        (file_path ++ "#chunk" ++ Nat.repr chunk.chunk_id) documentation cache_metadata 24
        (some chunk.content) store_source_code
      { result := Except.ok
          { chunk_id := chunk.chunk_id
            documentation := documentation
            cost := cost_metrics.total_cost
            tokens := cost_metrics.total_tokens
            cached := false
            source_code := some chunk.content
            error := none }
        genCalled := true
        saved := savedPair.2 }

/-- The degraded result synthesized in the `except` arm of `process_chunks`
for a chunk whose job raised `err`. -/
def degraded_result (chunk : CodeChunk) (err : String) : ChunkResult :=
  { chunk_id := chunk.chunk_id
    documentation := "<!-- Error processing chunk " ++ Nat.repr chunk.chunk_id ++ ": " ++ err ++ " -->"
    cost := 0
    tokens := 0
    cached := false
    source_code := none
    error := some err }

/-- Python `'sep'.join(parts)`. -/
def joinWith (sep : String) : List String → String
  | [] => ""
  | [p] => p
  | p :: rest => p ++ sep ++ joinWith sep rest

/-- One merged section (lines 267-286 of the processor): heading from the
input chunk at the same position, optional contained-symbols note, the
result's documentation with a leading top-level heading line stripped and the
rest whitespace-trimmed, then a separator. -/
def chunk_section (result : ChunkResult) (chunk : CodeChunk) : List String :=
  ["## Chunk " ++ Nat.repr (chunk.chunk_id + 1) ++ ": Lines " ++ Nat.repr chunk.start_line
     ++ "-" ++ Nat.repr chunk.end_line, ""]
  ++ (if chunk.elements.isEmpty then []
      else ["*Contains: " ++ String.intercalate ", " chunk.elements ++ "*", ""])
  ++ [(joinWith "\n"
        (match result.documentation.splitOn "\n" with
         | [] => []
         | l :: rest => if l.startsWith "# " then rest else l :: rest)).trim]
  ++ ["", "---", ""]

/-- `ChunkProcessor._merge_chunk_documentation`: header naming the file and
the chunk count, then the sections of the results paired positionally with
the input chunks (`chunk = chunks[i]`), joined with newlines.  On every call
site the two lists have equal length (one result per chunk). -/
def merge_chunk_documentation (file_path : String) (chunk_results : List ChunkResult)
    (chunks : List CodeChunk) : String :=
  let header := ["# Documentation: " ++ file_path, "",
    "*This file was processed in " ++ Nat.repr chunks.length
      ++ " chunks using AST-based intelligent chunking.*", ""]
  let doc_parts := header ++
    ((chunk_results.zip chunks).map (fun p => chunk_section p.1 p.2)).flatten
  joinWith "\n" doc_parts

/-- Accumulator of the `as_completed` collection loop of `process_chunks`. -/
structure CollectAcc where
  chunk_results : List ChunkResult
  total_cost : ℚ
  total_tokens : Nat
  cache_hits : Nat
  cache_misses : Nat
deriving DecidableEq

/-- One iteration of the collection loop: a completed job appends its result
and accumulates cost/tokens and the hit or miss counter; a raised job appends
the degraded result and touches no counter. -/
def collect_step (acc : CollectAcc) (chunk : CodeChunk) (out : SingleChunkOut) : CollectAcc :=
  match out.result with
  | Except.ok r =>
    { chunk_results := acc.chunk_results ++ [r]
      total_cost := acc.total_cost + r.cost
      total_tokens := acc.total_tokens + r.tokens
      cache_hits := if r.cached then acc.cache_hits + 1 else acc.cache_hits
      cache_misses := if r.cached then acc.cache_misses else acc.cache_misses + 1 }
  | Except.error err =>
    { acc with chunk_results := acc.chunk_results ++ [degraded_result chunk err] }

/-- The job submitted for position `i` of the chunk list. -/
def chunk_job (digest : String → String) (gen : Generator) (cache : Cache)
    (env : Nat → ChunkEnv) (store_source_code : Bool) (file_path : String)
    (chunks : List CodeChunk) (i : Nat) : Option (CodeChunk × SingleChunkOut) :=
  (chunks[i]?).map (fun c =>
    (c, process_single_chunk digest gen cache (env i) store_source_code file_path c))

/-- One iteration of the collection loop at completion-order position `i`. -/
def collect_fold_step (digest : String → String) (gen : Generator) (cache : Cache)
    (env : Nat → ChunkEnv) (store_source_code : Bool) (file_path : String)
    (chunks : List CodeChunk) (acc : CollectAcc) (i : Nat) : CollectAcc :=
  match chunk_job digest gen cache env store_source_code file_path chunks i with
  | none => acc
  | some (c, out) => collect_step acc c out

/-- The collection loop over the completion order. -/
def collected (digest : String → String) (gen : Generator) (cache : Cache)
    (env : Nat → ChunkEnv) (store_source_code : Bool) (file_path : String)
    (chunks : List CodeChunk) (order : List Nat) : CollectAcc :=
  order.foldl (collect_fold_step digest gen cache env store_source_code file_path chunks)
    { chunk_results := [], total_cost := 0, total_tokens := 0,
      cache_hits := 0, cache_misses := 0 }

/-- `chunk_results.sort(key=lambda x: x['chunk_id'])` (Python sort is a stable
merge sort). -/
def sorted_results (digest : String → String) (gen : Generator) (cache : Cache)
    (env : Nat → ChunkEnv) (store_source_code : Bool) (file_path : String)
    (chunks : List CodeChunk) (order : List Nat) : List ChunkResult :=
  (collected digest gen cache env store_source_code file_path chunks order).chunk_results.mergeSort
    (fun a b => a.chunk_id ≤ b.chunk_id)

/-- Combined metrics dictionary of `process_chunks`. -/
structure ProcMetrics where
  total_cost : ℚ
  total_tokens : Nat
  total_chunks : Nat
  cache_hits : Nat
  cache_misses : Nat
  cache_hit_rate : ℚ
deriving DecidableEq

/-- `put_item` overwrite of one key of the table. -/
def cacheInsert (c : Cache) (item : CacheEntry) : Cache :=
  fun k => if k = item.file_hash then some item else c k

/-- Application of the write (if any) of the job at position `i`. -/
def write_step (digest : String → String) (gen : Generator) (cache : Cache)
    (env : Nat → ChunkEnv) (store_source_code : Bool) (file_path : String)
    (chunks : List CodeChunk) (c : Cache) (i : Nat) : Cache :=
  match chunk_job digest gen cache env store_source_code file_path chunks i with
  | some (_, out) =>
    match out.saved with
    | some item => cacheInsert c item
    | none => c
  | none => c

/-- The table state after all jobs' writes have been applied. -/
def final_cache (digest : String → String) (gen : Generator) (cache : Cache)
    (env : Nat → ChunkEnv) (store_source_code : Bool) (file_path : String)
    (chunks : List CodeChunk) (order : List Nat) : Cache :=
  order.foldl (write_step digest gen cache env store_source_code file_path chunks) cache

/-- `ChunkProcessor.process_chunks`: run one job per chunk (each job reads the
invocation's initial table state — concurrent jobs of one invocation touch
pairwise distinct keys), collect the results in completion order `order`,
sort them by ordinal, merge, and report aggregate metrics; the hit rate is
`cache_hits / len(chunks) * 100` and `0` for an empty chunk list.  Returns
the merged document, the metrics, and the table state after the writes. -/
def process_chunks (digest : String → String) (gen : Generator) (cache : Cache)
    (env : Nat → ChunkEnv) (store_source_code : Bool) (file_path : String)
    (chunks : List CodeChunk) (order : List Nat) : String × ProcMetrics × Cache :=
  let acc := collected digest gen cache env store_source_code file_path chunks order
  let sorted := sorted_results digest gen cache env store_source_code file_path chunks order
  let merged_doc := merge_chunk_documentation file_path sorted chunks
  let metrics : ProcMetrics :=
    { total_cost := acc.total_cost
      total_tokens := acc.total_tokens
      total_chunks := chunks.length
      cache_hits := acc.cache_hits
      cache_misses := acc.cache_misses
      cache_hit_rate := if chunks.isEmpty then 0
        else (acc.cache_hits : ℚ) / (chunks.length : ℚ) * 100 }
  (merged_doc, metrics,
    final_cache digest gen cache env store_source_code file_path chunks order)

/-! ### Observation functions and per-branch lemmas -/

/-- The collected result contributed by the job at position `i`: the job's
returned dictionary, or the degraded result when the job raised.  (For an
out-of-range position — unreachable when the completion order is a
permutation of the positions — a junk degraded result is returned.) -/
def result_for (digest : String → String) (gen : Generator) (cache : Cache)
    (env : Nat → ChunkEnv) (store_source_code : Bool) (file_path : String)
    (chunks : List CodeChunk) (i : Nat) : ChunkResult :=
  match chunk_job digest gen cache env store_source_code file_path chunks i with
  | none => degraded_result ⟨i, 0, 0, "", [], ""⟩ "index out of range"
  | some (c, out) =>
    match out.result with
    | Except.ok r => r
    | Except.error err => degraded_result c err

theorem lookup_view_no_fault (digest : String → String) (cache : Cache) (e : ChunkEnv)
    (fp : String) (c : CodeChunk) (hf : e.getFault = false) :
    lookup_view digest cache e fp c = cache (calculate_chunk_hash digest fp c) := by
  simp [lookup_view, hf, get_cached]

theorem process_single_chunk_hit (digest : String → String) (gen : Generator)
    (cache : Cache) (e : ChunkEnv) (ssc : Bool) (fp : String) (c : CodeChunk)
    (entry : CacheEntry) (hview : lookup_view digest cache e fp c = some entry) :
    process_single_chunk digest gen cache e ssc fp c =
      { result := Except.ok
          { chunk_id := c.chunk_id
            documentation := entry.documentation
            cost := 0
            tokens := entry.metadata.tokens.getD 0
            cached := true
            source_code := entry.source_code
            error := none }
        genCalled := false
        saved := none } := by
  unfold process_single_chunk
  rw [hview]
  rfl

theorem process_single_chunk_miss_fault (digest : String → String) (gen : Generator)
    (cache : Cache) (e : ChunkEnv) (ssc : Bool) (fp : String) (c : CodeChunk)
    (err : String) (hview : lookup_view digest cache e fp c = none)
    (hgen : gen (gen_request fp c) = Except.error err) :
    process_single_chunk digest gen cache e ssc fp c =
      { result := Except.error err, genCalled := true, saved := none } := by
  unfold process_single_chunk
  rw [hview, hgen]

theorem process_single_chunk_miss_ok (digest : String → String) (gen : Generator)
    (cache : Cache) (e : ChunkEnv) (ssc : Bool) (fp : String) (c : CodeChunk)
    (doc : String) (cm : CostMetrics) (hview : lookup_view digest cache e fp c = none)
    (hgen : gen (gen_request fp c) = Except.ok (doc, cm)) :
    process_single_chunk digest gen cache e ssc fp c =
      { result := Except.ok
          { chunk_id := c.chunk_id
            documentation := doc
            cost := cm.total_cost
            tokens := cm.total_tokens
            cached := false
            source_code := some c.content
            error := none }
        genCalled := true
        saved := (save_to_cache e.putOk e.now e.createdAt
          (calculate_chunk_hash digest fp c) (fp ++ "#chunk" ++ Nat.repr c.chunk_id) doc
          { cost := some cm.total_cost
            tokens := some cm.total_tokens
            chunk_id := some c.chunk_id
            chunk_lines := some (Nat.repr c.start_line ++ "-" ++ Nat.repr c.end_line) }
          24 (some c.content) ssc).2 } := by
  unfold process_single_chunk
  rw [hview, hgen]

/-- The collected result of an `ok` job is the returned dictionary. -/
theorem result_for_ok (digest : String → String) (gen : Generator) (cache : Cache)
    (env : Nat → ChunkEnv) (ssc : Bool) (fp : String) (chunks : List CodeChunk)
    (i : Nat) (hi : i < chunks.length) (r : ChunkResult)
    (hok : (process_single_chunk digest gen cache (env i) ssc fp chunks[i]).result
      = Except.ok r) :
    result_for digest gen cache env ssc fp chunks i = r := by
  unfold result_for chunk_job
  rw [List.getElem?_eq_getElem hi]
  simp only [Option.map_some']
  rw [hok]

/-- The collected result of a raised job is the degraded result. -/
theorem result_for_error (digest : String → String) (gen : Generator) (cache : Cache)
    (env : Nat → ChunkEnv) (ssc : Bool) (fp : String) (chunks : List CodeChunk)
    (i : Nat) (hi : i < chunks.length) (err : String)
    (herr : (process_single_chunk digest gen cache (env i) ssc fp chunks[i]).result
      = Except.error err) :
    result_for digest gen cache env ssc fp chunks i = degraded_result chunks[i] err := by
  unfold result_for chunk_job
  rw [List.getElem?_eq_getElem hi]
  simp only [Option.map_some']
  rw [herr]

/-- Any returned (non-raised) result carries its own chunk's ordinal and no
error marker. -/
theorem process_single_chunk_ok_inv (digest : String → String) (gen : Generator)
    (cache : Cache) (e : ChunkEnv) (ssc : Bool) (fp : String) (c : CodeChunk)
    (r : ChunkResult)
    (hok : (process_single_chunk digest gen cache e ssc fp c).result = Except.ok r) :
    r.chunk_id = c.chunk_id ∧ r.error = none := by
  unfold process_single_chunk at hok
  rcases hv : lookup_view digest cache e fp c with _ | entry
  · rw [hv] at hok
    rcases hg : gen (gen_request fp c) with err | pair
    · rw [hg] at hok
      cases hok
    · rcases pair with ⟨doc, cm⟩
      rw [hg] at hok
      cases hok
      exact ⟨rfl, rfl⟩
  · rw [hv] at hok
    cases hok
    exact ⟨rfl, rfl⟩

/-- A raised job invoked the generator and wrote nothing to the cache. -/
theorem process_single_chunk_error_inv (digest : String → String) (gen : Generator)
    (cache : Cache) (e : ChunkEnv) (ssc : Bool) (fp : String) (c : CodeChunk)
    (err : String)
    (herr : (process_single_chunk digest gen cache e ssc fp c).result = Except.error err) :
    process_single_chunk digest gen cache e ssc fp c =
      { result := Except.error err, genCalled := true, saved := none } := by
  rcases hv : lookup_view digest cache e fp c with _ | entry
  · rcases hg : gen (gen_request fp c) with err2 | pair
    · have := process_single_chunk_miss_fault digest gen cache e ssc fp c err2 hv hg
      rw [this] at herr ⊢
      cases herr
      rfl
    · rcases pair with ⟨doc, cm⟩
      rw [process_single_chunk_miss_ok digest gen cache e ssc fp c doc cm hv hg] at herr
      cases herr
  · rw [process_single_chunk_hit digest gen cache e ssc fp c entry hv] at herr
    cases herr

/-- Everything a job persists sits under the chunk's own key, records the
documentation the job returned, and exists only for non-raised, uncached
results. -/
theorem process_single_chunk_saved_inv (digest : String → String) (gen : Generator)
    (cache : Cache) (e : ChunkEnv) (ssc : Bool) (fp : String) (c : CodeChunk)
    (item : CacheEntry)
    (hsaved : (process_single_chunk digest gen cache e ssc fp c).saved = some item) :
    item.file_hash = calculate_chunk_hash digest fp c ∧
    ∃ r, (process_single_chunk digest gen cache e ssc fp c).result = Except.ok r ∧
      item.documentation = r.documentation ∧ r.cached = false := by
  rcases hv : lookup_view digest cache e fp c with _ | entry
  · rcases hg : gen (gen_request fp c) with err | pair
    · rw [process_single_chunk_miss_fault digest gen cache e ssc fp c err hv hg] at hsaved
      cases hsaved
    · rcases pair with ⟨doc, cm⟩
      rw [process_single_chunk_miss_ok digest gen cache e ssc fp c doc cm hv hg] at hsaved ⊢
      unfold save_to_cache at hsaved
      rcases hput : e.putOk with _ | _
      · rw [hput] at hsaved
        simp at hsaved
      · rw [hput] at hsaved
        simp only [Bool.true_eq, if_true] at hsaved
        rcases hsaved with ⟨rfl⟩
        constructor
        · split <;> rfl
        · exact ⟨_, rfl, by split <;> rfl, rfl⟩
  · rw [process_single_chunk_hit digest gen cache e ssc fp c entry hv] at hsaved
    cases hsaved

/-! ### Characterization of the collection loop -/

theorem collect_fold_step_eq (digest : String → String) (gen : Generator) (cache : Cache)
    (env : Nat → ChunkEnv) (ssc : Bool) (fp : String) (chunks : List CodeChunk)
    (acc : CollectAcc) (i : Nat) (hi : i < chunks.length) :
    collect_fold_step digest gen cache env ssc fp chunks acc i =
      { chunk_results := acc.chunk_results ++ [result_for digest gen cache env ssc fp chunks i]
        total_cost := acc.total_cost + (result_for digest gen cache env ssc fp chunks i).cost
        total_tokens := acc.total_tokens + (result_for digest gen cache env ssc fp chunks i).tokens
        cache_hits := acc.cache_hits +
          (if (result_for digest gen cache env ssc fp chunks i).cached then 1 else 0)
        cache_misses := acc.cache_misses +
          (if !(result_for digest gen cache env ssc fp chunks i).cached &&
              (result_for digest gen cache env ssc fp chunks i).error.isNone
           then 1 else 0) } := by
  unfold collect_fold_step
  unfold chunk_job
  rw [List.getElem?_eq_getElem hi]
  simp only [Option.map_some']
  rcases hres : (process_single_chunk digest gen cache (env i) ssc fp chunks[i]).result
    with err | r
  · rw [result_for_error digest gen cache env ssc fp chunks i hi err hres]
    unfold collect_step
    rw [hres]
    simp [degraded_result]
  · rw [result_for_ok digest gen cache env ssc fp chunks i hi r hres]
    obtain ⟨_, herrnone⟩ := process_single_chunk_ok_inv digest gen cache (env i) ssc fp
      chunks[i] r hres
    unfold collect_step
    rw [hres]
    rcases hcached : r.cached with _ | _ <;>
      simp [hcached, herrnone]

theorem collected_foldl (digest : String → String) (gen : Generator) (cache : Cache)
    (env : Nat → ChunkEnv) (ssc : Bool) (fp : String) (chunks : List CodeChunk) :
    ∀ (order : List Nat) (acc : CollectAcc), (∀ i ∈ order, i < chunks.length) →
      order.foldl (collect_fold_step digest gen cache env ssc fp chunks) acc =
        { chunk_results := acc.chunk_results ++
            order.map (result_for digest gen cache env ssc fp chunks)
          total_cost := acc.total_cost +
            ((order.map (result_for digest gen cache env ssc fp chunks)).map
              (fun r => r.cost)).sum
          total_tokens := acc.total_tokens +
            ((order.map (result_for digest gen cache env ssc fp chunks)).map
              (fun r => r.tokens)).sum
          cache_hits := acc.cache_hits +
            (order.map (result_for digest gen cache env ssc fp chunks)).countP
              (fun r => r.cached)
          cache_misses := acc.cache_misses +
            (order.map (result_for digest gen cache env ssc fp chunks)).countP
              (fun r => !r.cached && r.error.isNone) } := by
  intro order
  induction order with
  | nil =>
    intro acc _
    simp
  | cons i rest ih =>
    intro acc hvalid
    have hi : i < chunks.length := hvalid i (List.mem_cons_self i rest)
    have hrest : ∀ j ∈ rest, j < chunks.length := fun j hj =>
      hvalid j (List.mem_cons_of_mem i hj)
    rw [List.foldl_cons, ih _ hrest, collect_fold_step_eq digest gen cache env ssc fp chunks acc i hi]
    simp only [List.map_cons, List.sum_cons, List.countP_cons, CollectAcc.mk.injEq]
    refine ⟨by simp, by ring, by omega, by omega, by omega⟩

theorem collected_eq (digest : String → String) (gen : Generator) (cache : Cache)
    (env : Nat → ChunkEnv) (ssc : Bool) (fp : String) (chunks : List CodeChunk)
    (order : List Nat) (hvalid : ∀ i ∈ order, i < chunks.length) :
    collected digest gen cache env ssc fp chunks order =
      { chunk_results := order.map (result_for digest gen cache env ssc fp chunks)
        total_cost := ((order.map (result_for digest gen cache env ssc fp chunks)).map
          (fun r => r.cost)).sum
        total_tokens := ((order.map (result_for digest gen cache env ssc fp chunks)).map
          (fun r => r.tokens)).sum
        cache_hits := (order.map (result_for digest gen cache env ssc fp chunks)).countP
          (fun r => r.cached)
        cache_misses := (order.map (result_for digest gen cache env ssc fp chunks)).countP
          (fun r => !r.cached && r.error.isNone) } := by
  unfold collected
  rw [collected_foldl digest gen cache env ssc fp chunks order _ hvalid]
  simp

/-! ### The ordinal sort -/

theorem result_for_chunk_id (digest : String → String) (gen : Generator) (cache : Cache)
    (env : Nat → ChunkEnv) (ssc : Bool) (fp : String) (chunks : List CodeChunk)
    (hcontig : ∀ j (hj : j < chunks.length), (chunks[j]).chunk_id = j) (i : Nat) :
    (result_for digest gen cache env ssc fp chunks i).chunk_id = i := by
  by_cases hi : i < chunks.length
  · rcases hres : (process_single_chunk digest gen cache (env i) ssc fp chunks[i]).result
      with err | r
    · rw [result_for_error digest gen cache env ssc fp chunks i hi err hres]
      show (chunks[i]).chunk_id = i
      exact hcontig i hi
    · rw [result_for_ok digest gen cache env ssc fp chunks i hi r hres]
      obtain ⟨hid, _⟩ := process_single_chunk_ok_inv digest gen cache (env i) ssc fp
        chunks[i] r hres
      rw [hid]
      exact hcontig i hi
  · unfold result_for chunk_job
    rw [List.getElem?_eq_none (Nat.le_of_not_lt hi)]
    rfl

theorem sorted_results_eq (digest : String → String) (gen : Generator) (cache : Cache)
    (env : Nat → ChunkEnv) (ssc : Bool) (fp : String) (chunks : List CodeChunk)
    (order : List Nat)
    (hcontig : ∀ j (hj : j < chunks.length), (chunks[j]).chunk_id = j)
    (hperm : order.Perm (List.range chunks.length)) :
    sorted_results digest gen cache env ssc fp chunks order =
      (List.range chunks.length).map (result_for digest gen cache env ssc fp chunks) := by
  have hvalid : ∀ i ∈ order, i < chunks.length := fun i hi =>
    List.mem_range.mp (hperm.mem_iff.mp hi)
  have hids : ∀ i, (result_for digest gen cache env ssc fp chunks i).chunk_id = i :=
    result_for_chunk_id digest gen cache env ssc fp chunks hcontig
  unfold sorted_results
  rw [collected_eq digest gen cache env ssc fp chunks order hvalid]
  have hpermS : (List.mergeSort
        (order.map (result_for digest gen cache env ssc fp chunks))
        (fun a b => a.chunk_id ≤ b.chunk_id)).Perm
      ((List.range chunks.length).map (result_for digest gen cache env ssc fp chunks)) :=
    (List.mergeSort_perm _ _).trans
      (hperm.map (result_for digest gen cache env ssc fp chunks))
  have hcanonIds : ((List.range chunks.length).map
      (result_for digest gen cache env ssc fp chunks)).map (fun r => r.chunk_id) =
      List.range chunks.length := by
    rw [List.map_map]
    have : ∀ i ∈ List.range chunks.length,
        ((fun r => r.chunk_id) ∘ result_for digest gen cache env ssc fp chunks) i = id i :=
      fun i _ => hids i
    rw [List.map_congr_left this, List.map_id]
  have hcanon : ((List.range chunks.length).map
      (result_for digest gen cache env ssc fp chunks)).Pairwise
      (fun a b => a.chunk_id < b.chunk_id) := by
    rw [List.pairwise_map]
    exact (List.pairwise_lt_range chunks.length).imp
      (fun {a b} h => by rw [hids a, hids b]; exact h)
  have hsortedIdsNodup : ((List.mergeSort
      (order.map (result_for digest gen cache env ssc fp chunks))
      (fun a b => a.chunk_id ≤ b.chunk_id)).map (fun r => r.chunk_id)).Nodup := by
    refine ((hpermS.map (fun r => r.chunk_id)).nodup_iff).mpr ?_
    rw [hcanonIds]
    exact List.nodup_range chunks.length
  have hsortedLe : (List.mergeSort
      (order.map (result_for digest gen cache env ssc fp chunks))
      (fun a b => a.chunk_id ≤ b.chunk_id)).Pairwise
      (fun a b => a.chunk_id ≤ b.chunk_id) := by
    have hsle := @List.sorted_mergeSort ChunkResult
      (fun a b => decide (a.chunk_id ≤ b.chunk_id))
      (fun a b c hab hbc => by
        simp only [decide_eq_true_eq] at *
        omega)
      (fun a b => by
        simp only [Bool.or_eq_true, decide_eq_true_eq]
        omega)
      (order.map (result_for digest gen cache env ssc fp chunks))
    exact hsle.imp (fun {a b} h => by simpa using h)
  have hsortedLt : (List.mergeSort
      (order.map (result_for digest gen cache env ssc fp chunks))
      (fun a b => a.chunk_id ≤ b.chunk_id)).Pairwise
      (fun a b => a.chunk_id < b.chunk_id) := by
    have hne : (List.mergeSort
        (order.map (result_for digest gen cache env ssc fp chunks))
        (fun a b => a.chunk_id ≤ b.chunk_id)).Pairwise
        (fun a b => a.chunk_id ≠ b.chunk_id) := by
      exact List.pairwise_map.mp hsortedIdsNodup
    exact (hsortedLe.and hne).imp (fun {a b} h => Nat.lt_of_le_of_ne h.1 h.2)
  haveI : IsAntisymm ChunkResult (fun a b => a.chunk_id < b.chunk_id) :=
    ⟨fun a b h1 h2 => absurd (Nat.lt_trans h1 h2) (Nat.lt_irrefl _)⟩
  exact List.eq_of_perm_of_sorted hpermS hsortedLt hcanon

/-! ### The table state after an invocation -/

/-- The item written by the job at position `i`, if any. -/
def writes_at (digest : String → String) (gen : Generator) (cache : Cache)
    (env : Nat → ChunkEnv) (ssc : Bool) (fp : String) (chunks : List CodeChunk)
    (i : Nat) : Option CacheEntry :=
  match chunk_job digest gen cache env ssc fp chunks i with
  | some (_, out) => out.saved
  | none => none

theorem chunk_job_eq (digest : String → String) (gen : Generator) (cache : Cache)
    (env : Nat → ChunkEnv) (ssc : Bool) (fp : String) (chunks : List CodeChunk)
    (i : Nat) (hi : i < chunks.length) :
    chunk_job digest gen cache env ssc fp chunks i =
      some (chunks[i], process_single_chunk digest gen cache (env i) ssc fp chunks[i]) := by
  unfold chunk_job
  rw [List.getElem?_eq_getElem hi]
  rfl

theorem write_step_eq (digest : String → String) (gen : Generator) (cache : Cache)
    (env : Nat → ChunkEnv) (ssc : Bool) (fp : String) (chunks : List CodeChunk)
    (c : Cache) (i : Nat) :
    write_step digest gen cache env ssc fp chunks c i =
      match writes_at digest gen cache env ssc fp chunks i with
      | some item => cacheInsert c item
      | none => c := by
  unfold write_step writes_at
  rcases chunk_job digest gen cache env ssc fp chunks i with _ | ⟨cc, out⟩
  · rfl
  · rfl

theorem foldl_write_preserve (digest : String → String) (gen : Generator) (cache : Cache)
    (env : Nat → ChunkEnv) (ssc : Bool) (fp : String) (chunks : List CodeChunk) :
    ∀ (order : List Nat) (c0 : Cache) (k : String),
      (∀ i ∈ order, ∀ item, writes_at digest gen cache env ssc fp chunks i = some item →
        item.file_hash ≠ k) →
      (order.foldl (write_step digest gen cache env ssc fp chunks) c0) k = c0 k := by
  intro order
  induction order with
  | nil => intro c0 k _; rfl
  | cons a rest ih =>
    intro c0 k hmiss
    rw [List.foldl_cons]
    rw [ih _ k (fun j hj => hmiss j (List.mem_cons_of_mem a hj))]
    rw [write_step_eq]
    rcases hw : writes_at digest gen cache env ssc fp chunks a with _ | item
    · rfl
    · have hne := hmiss a (List.mem_cons_self a rest) item hw
      simp only [cacheInsert]
      exact if_neg (fun hk => hne hk.symm)

theorem foldl_write_writer (digest : String → String) (gen : Generator) (cache : Cache)
    (env : Nat → ChunkEnv) (ssc : Bool) (fp : String) (chunks : List CodeChunk) :
    ∀ (order : List Nat) (c0 : Cache) (k : String) (i0 : Nat) (item0 : CacheEntry),
      order.Nodup → i0 ∈ order →
      writes_at digest gen cache env ssc fp chunks i0 = some item0 →
      item0.file_hash = k →
      (∀ j ∈ order, j ≠ i0 → ∀ item, writes_at digest gen cache env ssc fp chunks j = some item →
        item.file_hash ≠ k) →
      (order.foldl (write_step digest gen cache env ssc fp chunks) c0) k = some item0 := by
  intro order
  induction order with
  | nil => intro c0 k i0 item0 _ hmem; cases hmem
  | cons a rest ih =>
    intro c0 k i0 item0 hnodup hmem hw hk hothers
    have hnodup2 := List.nodup_cons.mp hnodup
    rw [List.foldl_cons]
    by_cases ha : a = i0
    · subst ha
      have hstep : (write_step digest gen cache env ssc fp chunks c0 a) k = some item0 := by
        rw [write_step_eq, hw]
        simp only [cacheInsert]
        rw [if_pos hk.symm]
      rw [foldl_write_preserve digest gen cache env ssc fp chunks rest _ k
        (fun j hj item hitem => hothers j (List.mem_cons_of_mem a hj)
          (fun hji => hnodup2.1 (hji ▸ hj)) item hitem)]
      exact hstep
    · have hmem2 : i0 ∈ rest := by
        rcases List.mem_cons.mp hmem with h | h
        · exact absurd h.symm ha
        · exact h
      refine ih _ k i0 item0 hnodup2.2 hmem2 hw hk
        (fun j hj hji item hitem => hothers j (List.mem_cons_of_mem a hj) hji item hitem)

/-- After the invocation, the table at chunk `i`'s key holds the item chunk
`i`'s job wrote, or the pre-invocation entry if it wrote nothing — provided
no other position's key collides with chunk `i`'s. -/
theorem final_cache_at_key (digest : String → String) (gen : Generator) (cache : Cache)
    (env : Nat → ChunkEnv) (ssc : Bool) (fp : String) (chunks : List CodeChunk)
    (order : List Nat) (i : Nat) (hi : i < chunks.length)
    (hperm : order.Perm (List.range chunks.length))
    (hkeys : ∀ j (hj : j < chunks.length), j ≠ i →
      calculate_chunk_hash digest fp chunks[j] ≠ calculate_chunk_hash digest fp chunks[i]) :
    final_cache digest gen cache env ssc fp chunks order
        (calculate_chunk_hash digest fp chunks[i]) =
      match (process_single_chunk digest gen cache (env i) ssc fp chunks[i]).saved with
      | some item => some item
      | none => cache (calculate_chunk_hash digest fp chunks[i]) := by
  have hvalid : ∀ j ∈ order, j < chunks.length := fun j hj =>
    List.mem_range.mp (hperm.mem_iff.mp hj)
  have hothers : ∀ j ∈ order, j ≠ i → ∀ item,
      writes_at digest gen cache env ssc fp chunks j = some item →
      item.file_hash ≠ calculate_chunk_hash digest fp chunks[i] := by
    intro j hj hji item hitem
    have hjlt := hvalid j hj
    have hitem2 : (process_single_chunk digest gen cache (env j) ssc fp chunks[j]).saved
        = some item := by
      unfold writes_at at hitem
      rw [chunk_job_eq digest gen cache env ssc fp chunks j hjlt] at hitem
      exact hitem
    obtain ⟨hhash, _⟩ := process_single_chunk_saved_inv digest gen cache (env j) ssc fp
      chunks[j] item hitem2
    rw [hhash]
    exact hkeys j hjlt hji
  rcases hs : (process_single_chunk digest gen cache (env i) ssc fp chunks[i]).saved
    with _ | item0
  · refine foldl_write_preserve digest gen cache env ssc fp chunks order cache _ ?_
    intro j hj item hitem
    by_cases hji : j = i
    · subst hji
      have hitem2 : (process_single_chunk digest gen cache (env j) ssc fp chunks[j]).saved
          = some item := by
        unfold writes_at at hitem
        rw [chunk_job_eq digest gen cache env ssc fp chunks j (hvalid j hj)] at hitem
        exact hitem
      rw [hs] at hitem2
      cases hitem2
    · exact hothers j hj hji item hitem
  · obtain ⟨hhash, _⟩ := process_single_chunk_saved_inv digest gen cache (env i) ssc fp
      chunks[i] item0 hs
    refine foldl_write_writer digest gen cache env ssc fp chunks order cache _ i item0
      ((hperm.nodup_iff).mpr (List.nodup_range chunks.length))
      (hperm.mem_iff.mpr (List.mem_range.mpr hi)) ?_ hhash hothers
    unfold writes_at
    rw [chunk_job_eq digest gen cache env ssc fp chunks i hi]
    exact hs

/-! ### Merge congruence -/

theorem chunk_section_congr (r1 r2 : ChunkResult) (c : CodeChunk)
    (h : r1.documentation = r2.documentation) :
    chunk_section r1 c = chunk_section r2 c := by
  unfold chunk_section
  rw [h]

theorem merge_congr (fp : String) :
    ∀ (rs1 rs2 : List ChunkResult) (chunks : List CodeChunk),
      rs1.length = rs2.length →
      (∀ k (h1 : k < rs1.length) (h2 : k < rs2.length),
        (rs1[k]).documentation = (rs2[k]).documentation) →
      merge_chunk_documentation fp rs1 chunks = merge_chunk_documentation fp rs2 chunks := by
  have hzip : ∀ (rs1 rs2 : List ChunkResult) (chunks : List CodeChunk),
      rs1.length = rs2.length →
      (∀ k (h1 : k < rs1.length) (h2 : k < rs2.length),
        (rs1[k]).documentation = (rs2[k]).documentation) →
      (rs1.zip chunks).map (fun p => chunk_section p.1 p.2) =
        (rs2.zip chunks).map (fun p => chunk_section p.1 p.2) := by
    intro rs1
    induction rs1 with
    | nil =>
      intro rs2 chunks hlen _
      have : rs2 = [] := List.eq_nil_of_length_eq_zero hlen.symm
      subst this
      rfl
    | cons r1 t1 ih =>
      intro rs2 chunks hlen hdoc
      rcases rs2 with _ | ⟨r2, t2⟩
      · cases hlen
      rcases chunks with _ | ⟨c, cs⟩
      · rfl
      simp only [List.zip_cons_cons, List.map_cons]
      refine congrArg₂ _ ?_ ?_
      · exact chunk_section_congr r1 r2 c (hdoc 0 (by simp) (by simp))
      · exact ih t2 cs (by simpa using hlen)
          (fun k h1 h2 => hdoc (k + 1) (by simpa using h1) (by simpa using h2))
  intro rs1 rs2 chunks hlen hdoc
  unfold merge_chunk_documentation
  rw [hzip rs1 rs2 chunks hlen hdoc]

theorem string_append_assoc (a b c : String) : (a ++ b) ++ c = a ++ (b ++ c) := by
  apply String.ext
  simp [String.data_append, List.append_assoc]

theorem lookup_view_some_inv (digest : String → String) (cache : Cache) (e : ChunkEnv)
    (fp : String) (c : CodeChunk) (entry : CacheEntry)
    (hview : lookup_view digest cache e fp c = some entry) :
    cache (calculate_chunk_hash digest fp c) = some entry := by
  unfold lookup_view get_cached at hview
  rcases hf : e.getFault with _ | _
  · rw [hf] at hview
    exact hview
  · rw [hf] at hview
    cases hview

/-! ### Claim theorems -/

/-- C7: Cache operations never raise to their caller.  `get_cached` is a total
function that reports a backend fault (`Except.error`) as `none`, exactly like
a genuine miss (`Except.ok none`); `save_to_cache` is a total function that
reports a backend write failure (`putOk = false`) as the return value
`(false, none)` — nothing persisted, no fault propagated — and otherwise just
returns its success flag. -/
theorem cache_ops_never_raise :
    (∀ msg : String, get_cached (Except.error msg) = none)
    ∧ (∀ opt : Option CacheEntry, get_cached (Except.ok opt) = opt)
    ∧ (∀ (now : Nat) (createdAt fh p d : String) (md : CacheMetadata) (ttl : Nat)
        (src : Option String) (retain : Bool),
        save_to_cache false now createdAt fh p d md ttl src retain = (false, none))
    ∧ (∀ (putOk : Bool) (now : Nat) (createdAt fh p d : String) (md : CacheMetadata)
        (ttl : Nat) (src : Option String) (retain : Bool),
        (save_to_cache putOk now createdAt fh p d md ttl src retain).1 = putOk) := by
  refine ⟨fun _ => rfl, fun _ => rfl, fun _ _ _ _ _ _ _ _ _ => rfl,
    fun putOk _ _ _ _ _ _ _ _ _ => ?_⟩
  cases putOk <;> rfl

/-- C8: the chunk cache key is the digest of
`file path ++ "::" ++ ordinal ++ "::" ++ chunk content`; it therefore depends
solely on that one chunk's path, ordinal and content (so changing a sibling
chunk's text cannot change it), and the same content at a different ordinal,
or in a different file, yields a different canonical digest input. -/
theorem chunk_hash_canonicalization :
    (∀ (digest : String → String) (fp : String) (c : CodeChunk),
      calculate_chunk_hash digest fp c =
        digest (fp ++ "::" ++ Nat.repr c.chunk_id ++ "::" ++ c.content))
    ∧ (∀ (digest : String → String) (fp : String) (c1 c2 : CodeChunk),
        c1.chunk_id = c2.chunk_id → c1.content = c2.content →
        calculate_chunk_hash digest fp c1 = calculate_chunk_hash digest fp c2)
    ∧ (∀ (fp : String) (c1 c2 : CodeChunk), c1.chunk_id ≠ c2.chunk_id →
        c1.content = c2.content → chunkHashInput fp c1 ≠ chunkHashInput fp c2)
    ∧ (∀ (fp1 fp2 : String) (c1 c2 : CodeChunk), fp1 ≠ fp2 → c1.chunk_id = c2.chunk_id →
        c1.content = c2.content → chunkHashInput fp1 c1 ≠ chunkHashInput fp2 c2) := by
  refine ⟨fun _ _ _ => rfl, ?_, ?_, ?_⟩
  · intro digest fp c1 c2 hid hcontent
    unfold calculate_chunk_hash chunkHashInput
    rw [hid, hcontent]
  · intro fp c1 c2 hne hcontent heq
    unfold chunkHashInput at heq
    rw [hcontent] at heq
    have h1 := string_append_cancel_right heq
    have h2 := string_append_cancel_right h1
    have h3 := string_append_cancel_left h2
    exact hne (natRepr_injective h3)
  · intro fp1 fp2 c1 c2 hne hid hcontent heq
    unfold chunkHashInput at heq
    rw [hid, hcontent] at heq
    have h1 := string_append_cancel_right heq
    have h2 := string_append_cancel_right h1
    have h3 := string_append_cancel_right h2
    exact hne (string_append_cancel_right h3)

theorem chunk_hash_canonicalization_witness :
    (((0 : Nat) ≠ 1 ∧ ("x" : String) = "x") ∧
      chunkHashInput "f.py" ⟨0, 1, 2, "t", [], "x"⟩ ≠ chunkHashInput "f.py" ⟨1, 1, 2, "t", [], "x"⟩)
    ∧ ((("a.py" : String) ≠ "b.py") ∧
      chunkHashInput "a.py" ⟨0, 1, 2, "t", [], "x"⟩ ≠ chunkHashInput "b.py" ⟨0, 1, 2, "t", [], "x"⟩) :=
  ⟨⟨⟨by decide, rfl⟩,
    chunk_hash_canonicalization.2.2.1 "f.py" ⟨0, 1, 2, "t", [], "x"⟩ ⟨1, 1, 2, "t", [], "x"⟩
      (by decide) rfl⟩,
   ⟨by decide,
    chunk_hash_canonicalization.2.2.2 "a.py" "b.py" ⟨0, 1, 2, "t", [], "x"⟩ ⟨0, 1, 2, "t", [], "x"⟩
      (by decide) rfl rfl⟩⟩

/-- C5 counterexample: `store(..., retainSource = true, sourceText = some "")`
persists an entry (the write succeeds) whose source field is absent, not the
present-but-empty `some ""` the claim's "if sourceText is present" case
predicts — Python's `if store_source and source_code:` treats the empty
string as falsy. -/
theorem save_to_cache_empty_source_counterexample :
    ((save_to_cache true 0 "t" "h" "p" "d" {} 24 (some "") true).2.map
      (fun item => item.source_code)) = some none
    ∧ ((save_to_cache true 0 "t" "h" "p" "d" {} 24 (some "") true).2.map
      (fun item => item.source_code)) ≠ some (some "") := by
  constructor
  · rfl
  · intro h
    rw [show ((save_to_cache true 0 "t" "h" "p" "d" {} 24 (some "") true).2.map
      (fun item => item.source_code)) = some none from rfl] at h
    cases h

/-- C5 (amended): if `retainSource` is false, or `sourceText` is absent or
empty, the persisted entry carries no source field at all; if `retainSource`
is true and `sourceText` is present and non-empty, the persisted entry's
source field is exactly that `sourceText`. -/
theorem save_to_cache_source_retention
    (putOk : Bool) (now : Nat) (createdAt fh p d : String) (md : CacheMetadata)
    (ttl : Nat) (src : Option String) (retain : Bool) (item : CacheEntry)
    (hitem : (save_to_cache putOk now createdAt fh p d md ttl src retain).2 = some item) :
    ((retain = false ∨ src = none ∨ src = some "") → item.source_code = none)
    ∧ (∀ s : String, retain = true → src = some s → s ≠ "" → item.source_code = some s) := by
  unfold save_to_cache at hitem
  rcases hput : putOk with _ | _
  · rw [hput] at hitem
    simp at hitem
  · rw [hput] at hitem
    simp only [if_pos] at hitem
    rcases hitem with ⟨rfl⟩
    by_cases hc : (retain && strTruthy src) = true
    · rw [if_pos hc]
      simp only [Bool.and_eq_true] at hc
      constructor
      · intro hbad
        rcases hbad with hbad | hbad | hbad
        · rw [hbad] at hc
          cases hc.1
        · rw [hbad] at hc
          cases hc.2
        · rw [hbad] at hc
          simp [strTruthy] at hc
      · intro s _ hsrc _
        rw [hsrc]
    · rw [if_neg hc]
      refine ⟨fun _ => rfl, ?_⟩
      intro s hretain hsrc hs
      exfalso
      apply hc
      rw [hretain, hsrc]
      simp [strTruthy, hs]

theorem save_to_cache_source_retention_witness :
    ((save_to_cache true 5 "t" "h" "p" "d" {} 24 (some "abc") true).2
      = some { file_hash := "h", file_path := "p", documentation := "d", metadata := {},
               created_at := "t", ttl := 5 + 24 * 3600, source_code := some "abc" })
    ∧ (((true : Bool) = false ∨ (some "abc" : Option String) = none ∨
          (some "abc" : Option String) = some "") → (some "abc" : Option String) = none)
    ∧ (∀ s : String, (true : Bool) = true → (some "abc" : Option String) = some s →
        s ≠ "" → (some "abc" : Option String) = some s) := by
  refine ⟨rfl, ?_⟩
  have h := save_to_cache_source_retention true 5 "t" "h" "p" "d" {} 24 (some "abc") true
    { file_hash := "h", file_path := "p", documentation := "d", metadata := {},
      created_at := "t", ttl := 5 + 24 * 3600, source_code := some "abc" } rfl
  exact ⟨fun hb => h.1 hb, fun s h1 h2 h3 => h.2 s h1 h2 h3⟩

/-- C4: on a cache hit, the per-chunk job builds its result directly from the
cached entry — its documentation, the metadata token count (defaulted to 0),
`cached = true`, zero cost, and the entry's stored source text — writes
nothing, and the generator is never consulted: the job's outcome is the same
under every generator. -/
theorem process_single_chunk_cache_hit_no_generator
    (digest : String → String) (gen : Generator) (cache : Cache) (e : ChunkEnv)
    (ssc : Bool) (fp : String) (c : CodeChunk) (entry : CacheEntry)
    (hview : lookup_view digest cache e fp c = some entry) :
    process_single_chunk digest gen cache e ssc fp c =
      { result := Except.ok
          { chunk_id := c.chunk_id
            documentation := entry.documentation
            cost := 0
            tokens := entry.metadata.tokens.getD 0
            cached := true
            source_code := entry.source_code
            error := none }
        genCalled := false
        saved := none }
    ∧ (∀ gen2 : Generator, process_single_chunk digest gen2 cache e ssc fp c =
        process_single_chunk digest gen cache e ssc fp c) := by
  refine ⟨process_single_chunk_hit digest gen cache e ssc fp c entry hview, fun gen2 => ?_⟩
  rw [process_single_chunk_hit digest gen cache e ssc fp c entry hview,
    process_single_chunk_hit digest gen2 cache e ssc fp c entry hview]

/-- C6: an empty chunk list does not fail: the merged document is the
header-only string (no chunk sections) and the metrics are all zero — in
particular the hit rate is 0 rather than a division-by-zero fault — and the
cache is untouched. -/
theorem process_chunks_empty_input (digest : String → String) (gen : Generator)
    (cache : Cache) (env : Nat → ChunkEnv) (ssc : Bool) (fp : String) :
    process_chunks digest gen cache env ssc fp [] [] =
      ("# Documentation: " ++ fp ++
         "\n\n*This file was processed in 0 chunks using AST-based intelligent chunking.*\n",
       { total_cost := 0, total_tokens := 0, total_chunks := 0,
         cache_hits := 0, cache_misses := 0, cache_hit_rate := 0 }, cache) := by
  have hsorted : sorted_results digest gen cache env ssc fp [] [] = [] := by
    unfold sorted_results collected
    simp
  have h1 : (process_chunks digest gen cache env ssc fp [] []).1 =
      "# Documentation: " ++ fp ++
        "\n\n*This file was processed in 0 chunks using AST-based intelligent chunking.*\n" := by
    show merge_chunk_documentation fp (sorted_results digest gen cache env ssc fp [] []) [] = _
    rw [hsorted]
    show ("# Documentation: " ++ fp) ++ "\n" ++
        ("" ++ "\n" ++
          ("*This file was processed in 0 chunks using AST-based intelligent chunking.*" ++ "\n"
            ++ "")) = _
    rw [string_append_assoc ("# Documentation: " ++ fp)]
    rfl
  exact Prod.ext h1 (Prod.ext rfl rfl)

/-! ### Concrete fixtures for witnesses -/

def exChunkA : CodeChunk := ⟨0, 1, 10, "function", ["foo"], "def foo(): pass"⟩

def exChunkB : CodeChunk := ⟨1, 8, 20, "class", [], "class A: pass"⟩

def exChunkC : CodeChunk := ⟨2, 18, 30, "code", [], "x = 1"⟩

def exEntry : CacheEntry :=
  { file_hash := "k", file_path := "p", documentation := "cached doc",
    metadata := { tokens := some 42 }, created_at := "T", ttl := 100,
    source_code := some "src" }

def exEnv : Nat → ChunkEnv := fun _ => ⟨false, true, 1000, "T"⟩

def exGenOk : Generator := fun _ => Except.ok ("gen doc", ⟨(1 : ℚ) / 2, 7⟩)

def exGenBoom : Generator := fun _ => Except.error "boom"

def exCacheEmpty : Cache := fun _ => none

def exCacheAll : Cache := fun _ => some exEntry

theorem process_single_chunk_cache_hit_no_generator_witness :
    lookup_view id exCacheAll (exEnv 0) "f.py" exChunkA = some exEntry
    ∧ ((process_single_chunk id exGenOk exCacheAll (exEnv 0) true "f.py" exChunkA =
        { result := Except.ok
            { chunk_id := 0, documentation := "cached doc", cost := 0, tokens := 42,
              cached := true, source_code := some "src", error := none }
          genCalled := false
          saved := none })
      ∧ (∀ gen2 : Generator,
          process_single_chunk id gen2 exCacheAll (exEnv 0) true "f.py" exChunkA =
          process_single_chunk id exGenOk exCacheAll (exEnv 0) true "f.py" exChunkA)) :=
  ⟨rfl, process_single_chunk_cache_hit_no_generator id exGenOk exCacheAll (exEnv 0) true
    "f.py" exChunkA exEntry rfl⟩

/-! ### C1: ordinal ordering -/

theorem canonical_results_ids (digest : String → String) (gen : Generator) (cache : Cache)
    (env : Nat → ChunkEnv) (ssc : Bool) (fp : String) (chunks : List CodeChunk)
    (hcontig : ∀ j (hj : j < chunks.length), (chunks[j]).chunk_id = j) :
    ((List.range chunks.length).map (result_for digest gen cache env ssc fp chunks)).map
      (fun r => r.chunk_id) = List.range chunks.length := by
  rw [List.map_map]
  have h : ∀ i ∈ List.range chunks.length,
      ((fun r => r.chunk_id) ∘ result_for digest gen cache env ssc fp chunks) i = id i :=
    fun i _ => result_for_chunk_id digest gen cache env ssc fp chunks hcontig i
  rw [List.map_congr_left h, List.map_id]

/-- C1: with contiguous zero-based ordinals, the results are sorted into
strictly ascending ordinal order (their ordinal sequence is exactly
`0, 1, …, n-1`) before merging, and the merged document is the merge of the
per-position results in input order — an expression independent of the
completion order `order`, so completion order never affects output order. -/
theorem process_chunks_ascending_ordinal_order
    (digest : String → String) (gen : Generator) (cache : Cache) (env : Nat → ChunkEnv)
    (ssc : Bool) (fp : String) (chunks : List CodeChunk) (order : List Nat)
    (hcontig : ∀ j (hj : j < chunks.length), (chunks[j]).chunk_id = j)
    (hperm : order.Perm (List.range chunks.length)) :
    ((sorted_results digest gen cache env ssc fp chunks order).map (fun r => r.chunk_id)
      = List.range chunks.length)
    ∧ (process_chunks digest gen cache env ssc fp chunks order).1 =
        merge_chunk_documentation fp
          ((List.range chunks.length).map (result_for digest gen cache env ssc fp chunks))
          chunks := by
  have hs := sorted_results_eq digest gen cache env ssc fp chunks order hcontig hperm
  constructor
  · rw [hs]
    exact canonical_results_ids digest gen cache env ssc fp chunks hcontig
  · show merge_chunk_documentation fp
        (sorted_results digest gen cache env ssc fp chunks order) chunks = _
    rw [hs]

theorem process_chunks_ascending_ordinal_order_witness :
    ((∀ j (hj : j < ([exChunkA, exChunkB, exChunkC] : List CodeChunk).length),
        (([exChunkA, exChunkB, exChunkC] : List CodeChunk)[j]).chunk_id = j)
      ∧ ([2, 0, 1] : List Nat).Perm (List.range 3))
    ∧ (((sorted_results id exGenOk exCacheEmpty exEnv true "f.py"
          [exChunkA, exChunkB, exChunkC] [2, 0, 1]).map (fun r => r.chunk_id)
        = List.range 3)
      ∧ (process_chunks id exGenOk exCacheEmpty exEnv true "f.py"
          [exChunkA, exChunkB, exChunkC] [2, 0, 1]).1 =
          merge_chunk_documentation "f.py"
            ((List.range 3).map (result_for id exGenOk exCacheEmpty exEnv true "f.py"
              [exChunkA, exChunkB, exChunkC]))
            [exChunkA, exChunkB, exChunkC]) :=
  ⟨⟨by decide, by decide⟩,
   process_chunks_ascending_ordinal_order id exGenOk exCacheEmpty exEnv true "f.py"
     [exChunkA, exChunkB, exChunkC] [2, 0, 1] (by decide) (by decide)⟩

/-! ### C2: metrics aggregation -/

/-- C2 counterexample: a single-chunk invocation that hits the cache reports
`cache_hit_rate = 100` — the percentage — whereas hits divided by total
chunks is `1`, so the claimed equation `hit rate = hits / total` fails. -/
theorem cache_hit_rate_percent_counterexample :
    (process_chunks id exGenOk exCacheAll exEnv true "f.py" [exChunkA] [0]).2.1.cache_hits = 1
    ∧ (process_chunks id exGenOk exCacheAll exEnv true "f.py" [exChunkA] [0]).2.1.total_chunks = 1
    ∧ (process_chunks id exGenOk exCacheAll exEnv true "f.py" [exChunkA] [0]).2.1.cache_hit_rate
        = 100
    ∧ (process_chunks id exGenOk exCacheAll exEnv true "f.py" [exChunkA] [0]).2.1.cache_hit_rate
        ≠ ((process_chunks id exGenOk exCacheAll exEnv true "f.py" [exChunkA] [0]).2.1.cache_hits
            : ℚ)
          / ((process_chunks id exGenOk exCacheAll exEnv true "f.py"
              [exChunkA] [0]).2.1.total_chunks : ℚ) := by
  have hrate : (process_chunks id exGenOk exCacheAll exEnv true "f.py"
      [exChunkA] [0]).2.1.cache_hit_rate = ((1 : Nat) : ℚ) / ((1 : Nat) : ℚ) * 100 := rfl
  have hh : (process_chunks id exGenOk exCacheAll exEnv true "f.py"
      [exChunkA] [0]).2.1.cache_hits = 1 := rfl
  have ht : (process_chunks id exGenOk exCacheAll exEnv true "f.py"
      [exChunkA] [0]).2.1.total_chunks = 1 := rfl
  refine ⟨hh, ht, ?_, ?_⟩
  · rw [hrate]
    norm_num
  · rw [hrate, hh, ht]
    norm_num

/-- C2 (amended): the metrics report the sum of cost and of tokens over all
per-chunk results, the count of results flagged cached (hits) and the count of
non-raised uncached results (misses), the chunk count, and a hit rate equal to
hits divided by total chunks **times 100** (a percentage), 0 for an empty
chunk list. -/
theorem process_chunks_metrics_aggregation
    (digest : String → String) (gen : Generator) (cache : Cache) (env : Nat → ChunkEnv)
    (ssc : Bool) (fp : String) (chunks : List CodeChunk) (order : List Nat)
    (hperm : order.Perm (List.range chunks.length)) :
    ((process_chunks digest gen cache env ssc fp chunks order).2.1.total_cost =
        (((List.range chunks.length).map (result_for digest gen cache env ssc fp chunks)).map
          (fun r => r.cost)).sum)
    ∧ ((process_chunks digest gen cache env ssc fp chunks order).2.1.total_tokens =
        (((List.range chunks.length).map (result_for digest gen cache env ssc fp chunks)).map
          (fun r => r.tokens)).sum)
    ∧ ((process_chunks digest gen cache env ssc fp chunks order).2.1.cache_hits =
        ((List.range chunks.length).map (result_for digest gen cache env ssc fp chunks)).countP
          (fun r => r.cached))
    ∧ ((process_chunks digest gen cache env ssc fp chunks order).2.1.cache_misses =
        ((List.range chunks.length).map (result_for digest gen cache env ssc fp chunks)).countP
          (fun r => !r.cached && r.error.isNone))
    ∧ ((process_chunks digest gen cache env ssc fp chunks order).2.1.total_chunks =
        chunks.length)
    ∧ ((process_chunks digest gen cache env ssc fp chunks order).2.1.cache_hit_rate =
        if chunks.isEmpty then 0
        else ((process_chunks digest gen cache env ssc fp chunks order).2.1.cache_hits : ℚ)
          / (chunks.length : ℚ) * 100) := by
  have hvalid : ∀ i ∈ order, i < chunks.length := fun i hi =>
    List.mem_range.mp (hperm.mem_iff.mp hi)
  have hacc := collected_eq digest gen cache env ssc fp chunks order hvalid
  refine ⟨?_, ?_, ?_, ?_, rfl, rfl⟩
  · show (collected digest gen cache env ssc fp chunks order).total_cost = _
    rw [hacc]
    exact List.Perm.sum_eq
      ((hperm.map (result_for digest gen cache env ssc fp chunks)).map (fun r => r.cost))
  · show (collected digest gen cache env ssc fp chunks order).total_tokens = _
    rw [hacc]
    exact List.Perm.sum_eq
      ((hperm.map (result_for digest gen cache env ssc fp chunks)).map (fun r => r.tokens))
  · show (collected digest gen cache env ssc fp chunks order).cache_hits = _
    rw [hacc]
    exact List.Perm.countP_eq _ (hperm.map (result_for digest gen cache env ssc fp chunks))
  · show (collected digest gen cache env ssc fp chunks order).cache_misses = _
    rw [hacc]
    exact List.Perm.countP_eq _ (hperm.map (result_for digest gen cache env ssc fp chunks))

theorem process_chunks_metrics_aggregation_witness :
    (([1, 0] : List Nat).Perm (List.range 2))
    ∧ ((process_chunks id exGenOk exCacheEmpty exEnv true "f.py"
          [exChunkA, exChunkB] [1, 0]).2.1.total_cost =
        (((List.range 2).map (result_for id exGenOk exCacheEmpty exEnv true "f.py"
          [exChunkA, exChunkB])).map (fun r => r.cost)).sum)
    ∧ ((process_chunks id exGenOk exCacheEmpty exEnv true "f.py"
          [exChunkA, exChunkB] [1, 0]).2.1.cache_hits =
        ((List.range 2).map (result_for id exGenOk exCacheEmpty exEnv true "f.py"
          [exChunkA, exChunkB])).countP (fun r => r.cached)) := by
  have h := process_chunks_metrics_aggregation id exGenOk exCacheEmpty exEnv true "f.py"
    [exChunkA, exChunkB] [1, 0] (by decide)
  exact ⟨by decide, h.1, h.2.2.1⟩

/-! ### C10: hits + misses counts completed jobs -/

theorem result_for_cached_imp_error_none (digest : String → String) (gen : Generator)
    (cache : Cache) (env : Nat → ChunkEnv) (ssc : Bool) (fp : String)
    (chunks : List CodeChunk) (i : Nat) :
    (result_for digest gen cache env ssc fp chunks i).cached = true →
    (result_for digest gen cache env ssc fp chunks i).error = none := by
  by_cases hi : i < chunks.length
  · rcases hres : (process_single_chunk digest gen cache (env i) ssc fp chunks[i]).result
      with err | r
    · rw [result_for_error digest gen cache env ssc fp chunks i hi err hres]
      intro h
      simp [degraded_result] at h
    · rw [result_for_ok digest gen cache env ssc fp chunks i hi r hres]
      intro _
      exact (process_single_chunk_ok_inv digest gen cache (env i) ssc fp chunks[i] r hres).2
  · unfold result_for chunk_job
    rw [List.getElem?_eq_none (Nat.le_of_not_lt hi)]
    intro h
    simp [degraded_result] at h

theorem countP_cached_partition :
    ∀ l : List ChunkResult, (∀ r ∈ l, r.cached = true → r.error = none) →
      l.countP (fun r => r.cached) + l.countP (fun r => !r.cached && r.error.isNone)
        = l.countP (fun r => r.error.isNone) := by
  intro l
  induction l with
  | nil => intro _; rfl
  | cons r t ih =>
    intro h
    rw [List.countP_cons, List.countP_cons, List.countP_cons,
      ← ih (fun x hx => h x (List.mem_cons_of_mem r hx))]
    rcases hc : r.cached with _ | _
    · cases hb : r.error.isNone
      · simp [hc, hb]
      · simp [hc, hb]
        omega
    · have herr := h r (List.mem_cons_self r t) hc
      simp [hc, herr]
      omega

/-- C10: a chunk whose job raises is counted in neither the hit nor the miss
counter, so hits + misses equals the number of positions whose jobs completed
without raising, and is strictly below the chunk count whenever some job
raised. -/
theorem hits_misses_count_completed_jobs
    (digest : String → String) (gen : Generator) (cache : Cache) (env : Nat → ChunkEnv)
    (ssc : Bool) (fp : String) (chunks : List CodeChunk) (order : List Nat)
    (hperm : order.Perm (List.range chunks.length)) :
    ((process_chunks digest gen cache env ssc fp chunks order).2.1.cache_hits
      + (process_chunks digest gen cache env ssc fp chunks order).2.1.cache_misses
      = (List.range chunks.length).countP
          (fun i => (result_for digest gen cache env ssc fp chunks i).error.isNone))
    ∧ ((∃ i, ∃ _ : i < chunks.length,
          ∃ err, (result_for digest gen cache env ssc fp chunks i).error = some err) →
        (process_chunks digest gen cache env ssc fp chunks order).2.1.cache_hits
          + (process_chunks digest gen cache env ssc fp chunks order).2.1.cache_misses
          < chunks.length) := by
  have hvalid : ∀ i ∈ order, i < chunks.length := fun i hi =>
    List.mem_range.mp (hperm.mem_iff.mp hi)
  have hacc := collected_eq digest gen cache env ssc fp chunks order hvalid
  have hmain : (process_chunks digest gen cache env ssc fp chunks order).2.1.cache_hits
      + (process_chunks digest gen cache env ssc fp chunks order).2.1.cache_misses
      = (List.range chunks.length).countP
          (fun i => (result_for digest gen cache env ssc fp chunks i).error.isNone) := by
    show (collected digest gen cache env ssc fp chunks order).cache_hits
      + (collected digest gen cache env ssc fp chunks order).cache_misses = _
    rw [hacc]
    rw [List.Perm.countP_eq _ (hperm.map (result_for digest gen cache env ssc fp chunks)),
      List.Perm.countP_eq _ (hperm.map (result_for digest gen cache env ssc fp chunks))]
    rw [countP_cached_partition _ ?mem]
    case mem =>
      intro r hr
      obtain ⟨i, _, rfl⟩ := List.mem_map.mp hr
      exact result_for_cached_imp_error_none digest gen cache env ssc fp chunks i
    rw [List.countP_map]
    rfl
  refine ⟨hmain, ?_⟩
  rintro ⟨i, hi, err, herr⟩
  rw [hmain]
  have hle : (List.range chunks.length).countP
      (fun i => (result_for digest gen cache env ssc fp chunks i).error.isNone)
      ≤ chunks.length := by
    have h0 : (List.range chunks.length).countP
        (fun i => (result_for digest gen cache env ssc fp chunks i).error.isNone)
        ≤ (List.range chunks.length).length := List.countP_le_length _
    rwa [List.length_range] at h0
  refine Nat.lt_of_le_of_ne hle ?_
  intro heq
  have heq2 : (List.range chunks.length).countP
      (fun i => (result_for digest gen cache env ssc fp chunks i).error.isNone)
      = (List.range chunks.length).length := by
    rw [List.length_range]
    exact heq
  have hall := List.countP_eq_length.mp heq2
  have hthis := hall i (List.mem_range.mpr hi)
  simp only [herr] at hthis
  simp at hthis

theorem hits_misses_count_completed_jobs_witness :
    (([1, 0] : List Nat).Perm (List.range 2)
      ∧ (∃ i, ∃ _ : i < ([exChunkA, exChunkB] : List CodeChunk).length,
          ∃ err, (result_for id exGenBoom exCacheEmpty exEnv true "f.py"
            [exChunkA, exChunkB] i).error = some err))
    ∧ (process_chunks id exGenBoom exCacheEmpty exEnv true "f.py"
        [exChunkA, exChunkB] [1, 0]).2.1.cache_hits
      + (process_chunks id exGenBoom exCacheEmpty exEnv true "f.py"
        [exChunkA, exChunkB] [1, 0]).2.1.cache_misses
      < ([exChunkA, exChunkB] : List CodeChunk).length :=
  ⟨⟨by decide, ⟨0, by decide, "boom", rfl⟩⟩,
   (hits_misses_count_completed_jobs id exGenBoom exCacheEmpty exEnv true "f.py"
     [exChunkA, exChunkB] [1, 0] (by decide)).2 ⟨0, by decide, "boom", rfl⟩⟩

/-! ### C3: fault isolation -/

theorem process_single_chunk_gen_congr (digest : String → String) (gen gen2 : Generator)
    (cache : Cache) (e : ChunkEnv) (ssc : Bool) (fp : String) (c : CodeChunk)
    (h : gen2 (gen_request fp c) = gen (gen_request fp c)) :
    process_single_chunk digest gen2 cache e ssc fp c =
      process_single_chunk digest gen cache e ssc fp c := by
  unfold process_single_chunk
  rw [h]

theorem result_for_gen_congr (digest : String → String) (gen gen2 : Generator)
    (cache : Cache) (env : Nat → ChunkEnv) (ssc : Bool) (fp : String)
    (chunks : List CodeChunk) (j : Nat) (hj : j < chunks.length)
    (h : gen2 (gen_request fp chunks[j]) = gen (gen_request fp chunks[j])) :
    result_for digest gen2 cache env ssc fp chunks j =
      result_for digest gen cache env ssc fp chunks j := by
  unfold result_for chunk_job
  rw [List.getElem?_eq_getElem hj]
  simp only [Option.map_some']
  rw [process_single_chunk_gen_congr digest gen gen2 cache (env j) ssc fp chunks[j] h]

/-- C3: a chunk job that raises does not abort the other jobs: the invocation
still produces exactly one result per chunk, assembled in ordinal order; the
failed chunk's result is the degraded one — its documentation starts with the
visible `<!-- Error processing chunk` marker, its cost and token count are
zero, it is flagged uncached and carries the error — the failed job called
the generator but wrote no cache entry; and every chunk's result depends only
on its own chunk's generator request, so siblings are unaffected. -/
theorem process_chunks_fault_isolation
    (digest : String → String) (gen : Generator) (cache : Cache) (env : Nat → ChunkEnv)
    (ssc : Bool) (fp : String) (chunks : List CodeChunk) (order : List Nat)
    (i : Nat) (err : String)
    (hcontig : ∀ j (hj : j < chunks.length), (chunks[j]).chunk_id = j)
    (hperm : order.Perm (List.range chunks.length))
    (hi : i < chunks.length)
    (hfail : (process_single_chunk digest gen cache (env i) ssc fp chunks[i]).result =
      Except.error err) :
    (sorted_results digest gen cache env ssc fp chunks order =
      (List.range chunks.length).map (result_for digest gen cache env ssc fp chunks))
    ∧ ((sorted_results digest gen cache env ssc fp chunks order).length = chunks.length)
    ∧ (result_for digest gen cache env ssc fp chunks i = degraded_result chunks[i] err)
    ∧ (∃ rest, (result_for digest gen cache env ssc fp chunks i).documentation =
        "<!-- Error processing chunk " ++ rest)
    ∧ ((result_for digest gen cache env ssc fp chunks i).cost = 0
      ∧ (result_for digest gen cache env ssc fp chunks i).tokens = 0
      ∧ (result_for digest gen cache env ssc fp chunks i).cached = false
      ∧ (result_for digest gen cache env ssc fp chunks i).error = some err)
    ∧ (process_single_chunk digest gen cache (env i) ssc fp chunks[i] =
        { result := Except.error err, genCalled := true, saved := none })
    ∧ (∀ j (hj : j < chunks.length) (gen2 : Generator),
        gen2 (gen_request fp chunks[j]) = gen (gen_request fp chunks[j]) →
        result_for digest gen2 cache env ssc fp chunks j =
          result_for digest gen cache env ssc fp chunks j) := by
  have hs := sorted_results_eq digest gen cache env ssc fp chunks order hcontig hperm
  have hdeg := result_for_error digest gen cache env ssc fp chunks i hi err hfail
  refine ⟨hs, ?_, hdeg, ?_, ?_, ?_, ?_⟩
  · rw [hs, List.length_map, List.length_range]
  · rw [hdeg]
    refine ⟨Nat.repr (chunks[i]).chunk_id ++ (": " ++ (err ++ " -->")), ?_⟩
    show "<!-- Error processing chunk " ++ Nat.repr (chunks[i]).chunk_id ++ ": " ++ err
      ++ " -->" = _
    simp [string_append_assoc]
  · rw [hdeg]
    exact ⟨rfl, rfl, rfl, rfl⟩
  · exact process_single_chunk_error_inv digest gen cache (env i) ssc fp chunks[i] err hfail
  · exact fun j hj gen2 hg =>
      result_for_gen_congr digest gen gen2 cache env ssc fp chunks j hj hg

theorem process_chunks_fault_isolation_witness :
    ((∀ j (hj : j < ([exChunkA, exChunkB] : List CodeChunk).length),
        (([exChunkA, exChunkB] : List CodeChunk)[j]).chunk_id = j)
      ∧ ([1, 0] : List Nat).Perm (List.range 2)
      ∧ (process_single_chunk id exGenBoom exCacheEmpty (exEnv 0) true "f.py"
          exChunkA).result = Except.error "boom")
    ∧ (result_for id exGenBoom exCacheEmpty exEnv true "f.py" [exChunkA, exChunkB] 0 =
        degraded_result exChunkA "boom")
    ∧ (process_single_chunk id exGenBoom exCacheEmpty (exEnv 0) true "f.py" exChunkA =
        { result := Except.error "boom", genCalled := true, saved := none }) := by
  have h := process_chunks_fault_isolation id exGenBoom exCacheEmpty exEnv true "f.py"
    [exChunkA, exChunkB] [1, 0] 0 "boom" (by decide) (by decide) (by decide) rfl
  exact ⟨⟨by decide, by decide, rfl⟩, h.2.2.1, h.2.2.2.2.2.1⟩

/-! ### C9: warm re-run idempotence -/

/-- C9: once a first invocation has left every chunk's entry in the cache
(`hwarm`: each chunk's job either persisted its entry or read an existing
one), a second invocation with the same file path and chunk list — whatever
either run's completion order, per-task timing environment or
source-retention flag — consults the generator on no chunk at all, produces
the identical merged documentation text, and reports a cache-hit count equal
to the chunk count.  `hkeys` is the standing collision-freeness assumption on
the digest over the chunks' (pairwise distinct) canonical inputs. -/
theorem process_chunks_warm_rerun_idempotent
    (digest : String → String) (gen : Generator) (cache0 : Cache)
    (env1 env2 : Nat → ChunkEnv) (ssc1 ssc2 : Bool) (fp : String)
    (chunks : List CodeChunk) (order1 order2 : List Nat)
    (hcontig : ∀ j (hj : j < chunks.length), (chunks[j]).chunk_id = j)
    (hperm1 : order1.Perm (List.range chunks.length))
    (hperm2 : order2.Perm (List.range chunks.length))
    (hkeys : ∀ i (hi : i < chunks.length) j (hj : j < chunks.length), i ≠ j →
      calculate_chunk_hash digest fp chunks[i] ≠ calculate_chunk_hash digest fp chunks[j])
    (hnofault2 : ∀ i, (env2 i).getFault = false)
    (hwarm : ∀ i (hi : i < chunks.length),
      ((process_single_chunk digest gen cache0 (env1 i) ssc1 fp chunks[i]).saved).isSome
      ∨ (lookup_view digest cache0 (env1 i) fp chunks[i]).isSome) :
    (∀ i (hi : i < chunks.length),
      (process_single_chunk digest gen
        (process_chunks digest gen cache0 env1 ssc1 fp chunks order1).2.2
        (env2 i) ssc2 fp chunks[i]).genCalled = false)
    ∧ ((process_chunks digest gen
        (process_chunks digest gen cache0 env1 ssc1 fp chunks order1).2.2
        env2 ssc2 fp chunks order2).1
      = (process_chunks digest gen cache0 env1 ssc1 fp chunks order1).1)
    ∧ ((process_chunks digest gen
        (process_chunks digest gen cache0 env1 ssc1 fp chunks order1).2.2
        env2 ssc2 fp chunks order2).2.1.cache_hits = chunks.length) := by
  have hc1 : (process_chunks digest gen cache0 env1 ssc1 fp chunks order1).2.2 =
      final_cache digest gen cache0 env1 ssc1 fp chunks order1 := rfl
  rw [hc1]
  have hA : ∀ i (hi : i < chunks.length), ∃ e : CacheEntry,
      final_cache digest gen cache0 env1 ssc1 fp chunks order1
        (calculate_chunk_hash digest fp chunks[i]) = some e
      ∧ e.documentation =
          (result_for digest gen cache0 env1 ssc1 fp chunks i).documentation := by
    intro i hi
    have hfc := final_cache_at_key digest gen cache0 env1 ssc1 fp chunks order1 i hi hperm1
      (fun j hj hne => hkeys j hj i hi hne)
    rcases hs : (process_single_chunk digest gen cache0 (env1 i) ssc1 fp chunks[i]).saved
      with _ | item
    · rcases hwarm i hi with hsome | hviewSome
      · rw [hs] at hsome
        cases hsome
      · obtain ⟨entry, hview⟩ := Option.isSome_iff_exists.mp hviewSome
        have hfc2 : final_cache digest gen cache0 env1 ssc1 fp chunks order1
            (calculate_chunk_hash digest fp chunks[i]) =
            cache0 (calculate_chunk_hash digest fp chunks[i]) := by
          rw [hs] at hfc
          exact hfc
        have hhit := process_single_chunk_hit digest gen cache0 (env1 i) ssc1 fp chunks[i]
          entry hview
        have hres : (process_single_chunk digest gen cache0 (env1 i) ssc1 fp
            chunks[i]).result = Except.ok
              { chunk_id := (chunks[i]).chunk_id
                documentation := entry.documentation
                cost := 0
                tokens := entry.metadata.tokens.getD 0
                cached := true
                source_code := entry.source_code
                error := none } := by
          rw [hhit]
        refine ⟨entry, ?_, ?_⟩
        · rw [hfc2]
          exact lookup_view_some_inv digest cache0 (env1 i) fp chunks[i] entry hview
        · rw [result_for_ok digest gen cache0 env1 ssc1 fp chunks i hi _ hres]
    · obtain ⟨hhash, r, hres, hdoc, _⟩ := process_single_chunk_saved_inv digest gen cache0
        (env1 i) ssc1 fp chunks[i] item hs
      have hfc2 : final_cache digest gen cache0 env1 ssc1 fp chunks order1
          (calculate_chunk_hash digest fp chunks[i]) = some item := by
        rw [hs] at hfc
        exact hfc
      refine ⟨item, hfc2, ?_⟩
      rw [result_for_ok digest gen cache0 env1 ssc1 fp chunks i hi r hres]
      exact hdoc
  have hB : ∀ i (hi : i < chunks.length), ∃ e : CacheEntry,
      lookup_view digest (final_cache digest gen cache0 env1 ssc1 fp chunks order1)
        (env2 i) fp chunks[i] = some e
      ∧ e.documentation =
          (result_for digest gen cache0 env1 ssc1 fp chunks i).documentation := by
    intro i hi
    obtain ⟨e, he, hdoc⟩ := hA i hi
    refine ⟨e, ?_, hdoc⟩
    rw [lookup_view_no_fault digest _ (env2 i) fp chunks[i] (hnofault2 i)]
    exact he
  have hrf2 : ∀ i (hi : i < chunks.length),
      (result_for digest gen (final_cache digest gen cache0 env1 ssc1 fp chunks order1)
          env2 ssc2 fp chunks i).documentation
        = (result_for digest gen cache0 env1 ssc1 fp chunks i).documentation
      ∧ (result_for digest gen (final_cache digest gen cache0 env1 ssc1 fp chunks order1)
          env2 ssc2 fp chunks i).cached = true := by
    intro i hi
    obtain ⟨e, hv, hdoc⟩ := hB i hi
    have hhit := process_single_chunk_hit digest gen
      (final_cache digest gen cache0 env1 ssc1 fp chunks order1) (env2 i) ssc2 fp chunks[i]
      e hv
    have hres : (process_single_chunk digest gen
        (final_cache digest gen cache0 env1 ssc1 fp chunks order1) (env2 i) ssc2 fp
        chunks[i]).result = Except.ok
          { chunk_id := (chunks[i]).chunk_id
            documentation := e.documentation
            cost := 0
            tokens := e.metadata.tokens.getD 0
            cached := true
            source_code := e.source_code
            error := none } := by
      rw [hhit]
    rw [result_for_ok digest gen
      (final_cache digest gen cache0 env1 ssc1 fp chunks order1) env2 ssc2 fp chunks i hi
      _ hres]
    exact ⟨hdoc, rfl⟩
  have hvalid2 : ∀ i ∈ order2, i < chunks.length := fun i hi =>
    List.mem_range.mp (hperm2.mem_iff.mp hi)
  refine ⟨?_, ?_, ?_⟩
  · intro i hi
    obtain ⟨e, hv, _⟩ := hB i hi
    rw [process_single_chunk_hit digest gen
      (final_cache digest gen cache0 env1 ssc1 fp chunks order1) (env2 i) ssc2 fp chunks[i]
      e hv]
  · have hs2 := sorted_results_eq digest gen
      (final_cache digest gen cache0 env1 ssc1 fp chunks order1) env2 ssc2 fp chunks order2
      hcontig hperm2
    have hs1 := sorted_results_eq digest gen cache0 env1 ssc1 fp chunks order1 hcontig hperm1
    show merge_chunk_documentation fp
        (sorted_results digest gen
          (final_cache digest gen cache0 env1 ssc1 fp chunks order1) env2 ssc2 fp chunks
          order2) chunks
      = merge_chunk_documentation fp
          (sorted_results digest gen cache0 env1 ssc1 fp chunks order1) chunks
    rw [hs1, hs2]
    refine merge_congr fp _ _ chunks (by simp) ?_
    intro k h1 h2
    have hk : k < chunks.length := by simpa using h1
    simp only [List.getElem_map, List.getElem_range]
    exact (hrf2 k hk).1
  · show (collected digest gen
        (final_cache digest gen cache0 env1 ssc1 fp chunks order1) env2 ssc2 fp chunks
        order2).cache_hits = chunks.length
    rw [collected_eq digest gen
      (final_cache digest gen cache0 env1 ssc1 fp chunks order1) env2 ssc2 fp chunks order2
      hvalid2]
    rw [List.countP_eq_length.mpr ?allc]
    case allc =>
      intro r hr
      obtain ⟨j, hj, rfl⟩ := List.mem_map.mp hr
      exact (hrf2 j (hvalid2 j hj)).2
    rw [List.length_map, hperm2.length_eq, List.length_range]

theorem process_chunks_warm_rerun_idempotent_witness :
    (([1, 0] : List Nat).Perm (List.range 2)
      ∧ (∀ i (hi : i < ([exChunkA, exChunkB] : List CodeChunk).length),
          ((process_single_chunk id exGenOk exCacheEmpty (exEnv i) true "f.py"
            (([exChunkA, exChunkB] : List CodeChunk)[i])).saved).isSome
          ∨ (lookup_view id exCacheEmpty (exEnv i) "f.py"
              (([exChunkA, exChunkB] : List CodeChunk)[i])).isSome))
    ∧ ((process_chunks id exGenOk
        (process_chunks id exGenOk exCacheEmpty exEnv true "f.py"
          [exChunkA, exChunkB] [1, 0]).2.2
        exEnv true "f.py" [exChunkA, exChunkB] [0, 1]).1
      = (process_chunks id exGenOk exCacheEmpty exEnv true "f.py"
          [exChunkA, exChunkB] [1, 0]).1)
    ∧ ((process_chunks id exGenOk
        (process_chunks id exGenOk exCacheEmpty exEnv true "f.py"
          [exChunkA, exChunkB] [1, 0]).2.2
        exEnv true "f.py" [exChunkA, exChunkB] [0, 1]).2.1.cache_hits = 2) := by
  have h := process_chunks_warm_rerun_idempotent id exGenOk exCacheEmpty exEnv exEnv
    true true "f.py" [exChunkA, exChunkB] [1, 0] [0, 1]
    (by decide) (by decide) (by decide) (by decide) (fun _ => rfl) (by decide)
  exact ⟨⟨by decide, by decide⟩, h.2.1, h.2.2⟩

end AutoDoc
